import Mathlib

/-!
Verification of the static symbol extraction and cross-reference resolution
engine: a shallow embedding of `knowledge_base/code_parser.py`
(`extract_symbols_from_code`, `detect_design_patterns`,
`build_code_symbol_graph_data`) and of the linking pass of
`knowledge_base/graph_db_manager.py` (`populate_graph_from_code_data`),
together with theorems about the embedded definitions.

Python-level conventions used by the embedding:
 - values that are "a string or `None`" in Python are `Option String`;
   `pyStr` is Python's `str()` as applied by an f-string, `pyTruthy` is
   Python truthiness of such a value;
 - Python `dict`s are insertion-ordered association lists; `dictInsert`
   is `d[k] = v` (overwrite in place, else append), `dictGet` is `d.get(k)`;
 - tree-sitter concrete syntax trees are the mutual inductive `CST`;
   every node carries its type, its verbatim source text (the byte slice
   `code_bytes[start_byte:end_byte]` that `get_node_text` would decode),
   its start/end points, and its children, each child tagged with its
   optional field name and whether it is a named node.
-/

/-- Python `str(x)` as rendered by an f-string, for a string-or-None value. -/
def pyStr : Option String → String
  | some s => s
  | none => "None"

/-- Python truthiness of a string-or-None value (`None` and `""` are falsy). -/
def pyTruthy : Option String → Bool
  | some s => s != ""
  | none => false

/-- Python `d[k] = v` on an insertion-ordered dictionary: overwrite the
existing entry in place if the key is present, otherwise append. -/
def dictInsert {κ α : Type} [DecidableEq κ] (k : κ) (v : α) :
    List (κ × α) → List (κ × α)
  | [] => [(k, v)]
  | (k', v') :: rest =>
      if k' = k then (k, v) :: rest else (k', v') :: dictInsert k v rest

/-- Python `d.get(k)`: the value of the first (hence unique) entry for `k`. -/
def dictGet {κ α : Type} [DecidableEq κ] (k : κ) : List (κ × α) → Option α
  | [] => none
  | (k', v) :: rest => if k' = k then some v else dictGet k rest

/-- Whether `p` is an initial run of `l` (Python `startswith`, on chars). -/
def leadsWith : List Char → List Char → Bool
  | [], _ => true
  | _ :: _, [] => false
  | p :: ps, c :: cs => p == c && leadsWith ps cs

/-- Whether `n` occurs contiguously inside `l` (Python `in`, on chars). -/
def hasSubList (n : List Char) : List Char → Bool
  | [] => n.isEmpty
  | c :: cs => leadsWith n (c :: cs) || hasSubList n cs

/-- Python `needle in hay` for strings (contiguous substring test). -/
def pyIn (needle hay : String) : Bool := hasSubList needle.data hay.data

/-- Python `s.startswith(p)`. -/
def pyStartsWith (s p : String) : Bool := leadsWith p.data s.data

/-- Characters of `l` strictly before the first `'.'`. -/
def takeToDot : List Char → List Char
  | [] => []
  | c :: cs => if c = '.' then [] else c :: takeToDot cs

/-- Characters of `l` strictly after the first `'.'`. -/
def dropThroughDot : List Char → List Char
  | [] => []
  | c :: cs => if c = '.' then cs else dropThroughDot cs

/-- Python `s.split(".", 1)[0]` (valid when `s` contains a dot). -/
def beforeFirstDot (s : String) : String := ⟨takeToDot s.data⟩

/-- Python `s.split(".", 1)[1]` (valid when `s` contains a dot). -/
def afterFirstDot (s : String) : String := ⟨dropThroughDot s.data⟩

/-- Python `s.split(".")[1]`: the text between the first dot and the second
dot (or the end).  Valid when `s` contains a dot. -/
def secondDotComponent (s : String) : String := ⟨takeToDot (dropThroughDot s.data)⟩

/-- Python `os.path.basename` for POSIX-style paths. -/
def pathBasename (p : String) : String := ⟨(p.data.reverse.takeWhile (fun c => c != '/')).reverse⟩

mutual
/-- A tree-sitter concrete syntax tree node: node type, verbatim source
text, start point (row, column), end point (row, column), children. -/
inductive CST where
  | mk (ty : String) (text : String) (startRow startCol endRow endCol : Nat)
       (children : CSTChildren)
inductive CSTChildren where
  | nil
  | cons (fieldName : Option String) (named : Bool) (child : CST) (rest : CSTChildren)
end

def CST.ty : CST → String
  | .mk t _ _ _ _ _ _ => t

def CST.text : CST → String
  | .mk _ tx _ _ _ _ _ => tx

def CST.startRow : CST → Nat
  | .mk _ _ r _ _ _ _ => r

def CST.startCol : CST → Nat
  | .mk _ _ _ c _ _ _ => c

def CST.endRow : CST → Nat
  | .mk _ _ _ _ r _ _ => r

def CST.endCol : CST → Nat
  | .mk _ _ _ _ _ c _ => c

def CST.children : CST → CSTChildren
  | .mk _ _ _ _ _ _ ch => ch

/-- tree-sitter `node.child_by_field_name(f)`: first child carrying field `f`. -/
def childByField (f : String) : CSTChildren → Option CST
  | .nil => none
  | .cons fn _ c rest => if fn = some f then some c else childByField f rest

/-- tree-sitter `node.named_children`, in order. -/
def namedChildren : CSTChildren → List CST
  | .nil => []
  | .cons _ nm c rest => if nm then c :: namedChildren rest else namedChildren rest

/-- tree-sitter `node.children` (all children, named and anonymous). -/
def allChildren : CSTChildren → List CST
  | .nil => []
  | .cons _ _ c rest => c :: allChildren rest

/-- Python `node.children[0]` guarded by `if node.children:`. -/
def firstChild : CSTChildren → Option CST
  | .nil => none
  | .cons _ _ c _ => some c

/-- `get_node_text_safe(node)`: text of an optional node, `None`-propagating. -/
def textOpt (n : Option CST) : Option String := n.map CST.text

/-- One entry of `file_symbols["functions"]` in `extract_symbols_from_code`. -/
structure FunctionSymbol where
  name : Option String
  lineno : Nat
  colOffset : Nat
  endLineno : Nat
  endColOffset : Nat
  codeSnippet : String
  isStatic : Bool
deriving DecidableEq

/-- One entry of `file_symbols["classes"]` in `extract_symbols_from_code`. -/
structure ClassSymbol where
  name : Option String
  lineno : Nat
  colOffset : Nat
  endLineno : Nat
  endColOffset : Nat
  codeSnippet : String
  bases : List String
  attributes : List String
deriving DecidableEq

/-- The `file_symbols` record built by `extract_symbols_from_code`. -/
structure FileSymbols where
  functions : List FunctionSymbol
  classes : List ClassSymbol
  imports : List (Option String)
  calls : List (Option String × List String)
  aliases : List (Option String × Option String)
deriving DecidableEq

def emptyFileSymbols : FileSymbols :=
  { functions := [], classes := [], imports := [], calls := [], aliases := [] }

/-- The rewrite applied by `find_calls` to one callee text: a text beginning
with `self.` is, under a truthy current class, rebound to
`<ClassName>.<member>` where `<member>` is `func_text.split(".", 1)[1]`;
every other text is kept verbatim. -/
def rewriteSelfCall (currentClass : Option String) (funcText : String) : String :=
  if pyStartsWith funcText "self." && pyTruthy currentClass then
    pyStr currentClass ++ "." ++ afterFirstDot funcText
  else funcText

mutual
/-- `find_calls(node, call_list, current_class)`: append the (rewritten)
callee text of every call expression in `node`, depth first, parent before
children, to `callList`. -/
def find_calls : CST → List String → Option String → List String
  | .mk ty _ _ _ _ _ ch, callList, currentClass =>
      let callList :=
        if ty = "call" then
          match childByField "function" ch with
          | some funcNode => callList ++ [rewriteSelfCall currentClass funcNode.text]
          | none => callList
        else callList
      find_callsChildren ch callList currentClass
def find_callsChildren : CSTChildren → List String → Option String → List String
  | .nil, callList, _ => callList
  | .cons _ _ c rest, callList, currentClass =>
      find_callsChildren rest (find_calls c callList currentClass) currentClass
end

/-- The body of the loop of the `import_statement` branch of `traverse`:
record module names, and alias→module entries for aliased imports. -/
def importChild (syms : FileSymbols) (child : CST) : FileSymbols :=
  if child.ty = "aliased_import" then
    let mod := textOpt (childByField "name" child.children)
    let aliasName := textOpt (childByField "alias" child.children)
    { syms with aliases := dictInsert aliasName mod syms.aliases
                imports := syms.imports ++ [mod] }
  else if child.ty = "dotted_name" then
    { syms with imports := syms.imports ++ [some child.text] }
  else syms

/-- The `import_statement` branch of `traverse`: loop over named children. -/
def importStep (syms : FileSymbols) (n : CST) : FileSymbols :=
  (namedChildren n.children).foldl importChild syms

/-- The `import_from_statement` branch of `traverse`.  The code asks for a
field named `"module"`; tree-sitter-python names that field `"module_name"`,
so on real trees this branch records nothing — embedded as written. -/
def importFromStep (syms : FileSymbols) (n : CST) : FileSymbols :=
  match childByField "module" n.children with
  | some moduleNode =>
      let mod := some moduleNode.text
      let syms := { syms with imports := syms.imports ++ [mod] }
      match childByField "alias" n.children with
      | some aliasNode => { syms with aliases := dictInsert (some aliasNode.text) mod syms.aliases }
      | none => syms
  | none => syms

/-- The base/attribute scan of the `class_definition` branch of `traverse`:
one loop over the class node's immediate named children, collecting
identifier-like texts of an `argument_list` child as bases and the left-hand
side of an `expression_statement` child whose first child is an `assignment`
as an attribute. -/
def classBasesAttrs (children : List CST) : List String × List String :=
  children.foldl (fun acc child =>
    let acc :=
      if child.ty = "argument_list" then
        ((namedChildren child.children).foldl (fun bs arg =>
          if arg.ty = "identifier" || arg.ty = "dotted_name" then bs ++ [arg.text]
          else bs) acc.1, acc.2)
      else acc
    if child.ty = "expression_statement" && !(allChildren child.children).isEmpty then
      match firstChild child.children with
      | some assignment =>
          if assignment.ty = "assignment" then
            match childByField "left" assignment.children with
            | some left => (acc.1, acc.2 ++ [left.text])
            | none => acc
          else acc
      | none => acc
    else acc) ([], [])

/-- The `class_definition` branch of `traverse`: append the class record. -/
def classStep (syms : FileSymbols) (n : CST) : FileSymbols :=
  let className := textOpt (childByField "name" n.children)
  let (bases, attrs) := classBasesAttrs (namedChildren n.children)
  { syms with classes := syms.classes ++
      [{ name := className
         lineno := n.startRow + 1
         colOffset := n.startCol
         endLineno := n.endRow + 1
         endColOffset := n.endCol
         codeSnippet := n.text
         bases := bases
         attributes := attrs }] }

/-- The `function_definition` branch of `traverse`: qualified name, static
flag by decorator-text containment (dead on real trees, where decorators are
siblings under a `decorated_definition`, not children of the definition),
nested call scan, and the `calls` dictionary entry. -/
def functionStep (syms : FileSymbols) (currentClass : Option String) (n : CST) : FileSymbols :=
  let funcName := textOpt (childByField "name" n.children)
  let qualifiedName : Option String :=
    if pyTruthy currentClass then some (pyStr currentClass ++ "." ++ pyStr funcName)
    else funcName
  let isStatic := (allChildren n.children).any (fun dec =>
    dec.ty = "decorator" && pyIn "staticmethod" dec.text)
  let callList := find_calls n [] currentClass
  { syms with
      functions := syms.functions ++
        [{ name := qualifiedName
           lineno := n.startRow + 1
           colOffset := n.startCol
           endLineno := n.endRow + 1
           endColOffset := n.endCol
           codeSnippet := n.text
           isStatic := isStatic }]
      calls := dictInsert qualifiedName callList syms.calls }

/-- The traversal state: the accumulating `file_symbols` record plus the
single mutable `current_class` slot. -/
structure ExtState where
  syms : FileSymbols
  currentClass : Option String
deriving DecidableEq

/-- The dispatch on `node.type` at the top of `traverse` (the if/elif
chain), before recursing into children. -/
def traverseStep (st : ExtState) (n : CST) : ExtState :=
  if n.ty = "import_statement" then { st with syms := importStep st.syms n }
  else if n.ty = "import_from_statement" then { st with syms := importFromStep st.syms n }
  else if n.ty = "class_definition" then
    { syms := classStep st.syms n
      currentClass := textOpt (childByField "name" n.children) }
  else if n.ty = "function_definition" then
    { st with syms := functionStep st.syms st.currentClass n }
  else st

mutual
/-- `traverse(node)`: apply the node dispatch, recurse into all children in
order, and on leaving a `class_definition` clear (not restore) the
`current_class` slot. -/
def CST.traverse : ExtState → CST → ExtState
  | st, .mk ty tx a b c d ch =>
      let st1 := traverseStep st (.mk ty tx a b c d ch)
      let st2 := CST.traverseChildren st1 ch
      if ty = "class_definition" then { st2 with currentClass := none } else st2
def CST.traverseChildren : ExtState → CSTChildren → ExtState
  | st, .nil => st
  | st, .cons _ _ c rest => CST.traverseChildren (CST.traverse st c) rest
end

/-- `extract_symbols_from_code`, from the parse tree of the source text on:
run `traverse` from the root with empty symbols and no current class. -/
def extract_symbols_from_code (root : CST) : FileSymbols :=
  (CST.traverse { syms := emptyFileSymbols, currentClass := none } root).syms

/-- One entry of the list returned by `detect_design_patterns`. -/
structure PatternTag where
  pattern : String
  cls : Option String
  role : String
deriving DecidableEq

/-- `detect_design_patterns(filepath, code_symbols)`: tag a class as a
Singleton when its verbatim snippet textually contains both `"__new__"`
and `"cls._instance"`.  The `filepath` argument is unused by the code. -/
def detect_design_patterns (_filepath : String) (symbols : FileSymbols) : List PatternTag :=
  symbols.classes.foldl (fun patterns cls =>
    if pyIn "__new__" cls.codeSnippet && pyIn "cls._instance" cls.codeSnippet then
      patterns ++ [{ pattern := "Singleton", cls := cls.name, role := "Singleton" }]
    else patterns) []

/-- The symbol-table writes `symbol_table[name] = f"{filepath}::{name}"`
performed for one successfully parsed file, in code order: all functions,
then all classes. -/
def symbolWrites (filepath : String) (symbols : FileSymbols) :
    List (Option String × String) :=
  symbols.functions.map (fun f => (f.name, filepath ++ "::" ++ pyStr f.name))
    ++ symbols.classes.map (fun c => (c.name, filepath ++ "::" ++ pyStr c.name))

/-- The triple returned by `build_code_symbol_graph_data`. -/
structure BuildResult where
  codeGraphData : List (String × FileSymbols)
  symbolTable : List (Option String × String)
  allPatterns : List (String × List PatternTag)
deriving DecidableEq

/-- The body of the per-file loop of `build_code_symbol_graph_data`: a file
whose extraction raised is logged and skipped; a successful file records its
patterns, its symbols, and its symbol-table writes. -/
def processFile (acc : BuildResult) (entry : String × Except String FileSymbols) :
    BuildResult :=
  match entry.2 with
  | .error _ => acc
  | .ok symbols =>
      { allPatterns :=
          dictInsert entry.1 (detect_design_patterns entry.1 symbols) acc.allPatterns
        codeGraphData := dictInsert entry.1 symbols acc.codeGraphData
        symbolTable :=
          (symbolWrites entry.1 symbols).foldl
            (fun t kv => dictInsert kv.1 kv.2 t) acc.symbolTable }

/-- `build_code_symbol_graph_data`, from the per-file loop on: the input is
the list of `(relative_filepath, outcome)` pairs in the repository walker's
order, where `outcome` is the result of attempting
`extract_symbols_from_code` on the file's content (`Except.error` models a
raised exception). -/
def build_code_symbol_graph_data
    (files : List (String × Except String FileSymbols)) : BuildResult :=
  files.foldl processFile
    { codeGraphData := [], symbolTable := [], allPatterns := [] }

/-- A property value as passed to the Neo4j adapter. -/
inductive PropVal where
  | s (v : String)
  | os (v : Option String)
  | n (v : Nat)
  | b (v : Bool)
deriving DecidableEq

/-- One idempotent upsert emitted by `populate_graph_from_code_data`:
`node` is a `merge_node(label, props, uniqueKey)` call and `rel` is a
`merge_relationship(l1, k1, v1, ty, l2, k2, v2, props)` call. -/
inductive GraphOp where
  | node (label : String) (props : List (String × PropVal)) (uniqueKey : String)
  | rel (l1 k1 : String) (v1 : PropVal) (ty : String)
        (l2 k2 : String) (v2 : PropVal) (props : List (String × PropVal))
deriving DecidableEq

/-- The Function node and `CONTAINS_FUNCTION` edge upserts for one function. -/
def funcOps (filepath : String) (f : FunctionSymbol) : List GraphOp :=
  let funcId := filepath ++ "::" ++ pyStr f.name
  [ .node "Function"
      [("id", .s funcId), ("name", .os f.name), ("lineno", .n f.lineno),
       ("end_lineno", .n f.endLineno), ("file_path", .s filepath),
       ("code_snippet", .s f.codeSnippet), ("is_static", .b f.isStatic)] "id",
    .rel "File" "path" (.s filepath) "CONTAINS_FUNCTION" "Function" "id" (.s funcId) [] ]

/-- The Attribute node and `HAS_ATTRIBUTE` edge upserts for one attribute. -/
def attrOps (filepath clsId : String) (attr : String) : List GraphOp :=
  let attrId := clsId ++ "::" ++ attr
  [ .node "Attribute"
      [("id", .s attrId), ("name", .s attr), ("class_id", .s clsId),
       ("file_path", .s filepath)] "id",
    .rel "Class" "id" (.s clsId) "HAS_ATTRIBUTE" "Attribute" "id" (.s attrId) [] ]

/-- The `OVERRIDES` upsert attempt for one function of the file against one
resolved base class: the function qualifies when its name contains a dot and
starts with `<className>.`; the looked-up target is `<base>.<methodName>`
with `methodName = func["name"].split(".")[1]`.  When either name is absent
(Python `None`) the original code would raise a `TypeError`; such records
never arise from parsing, and the embedding emits nothing for them. -/
def overrideOps (filepath : String) (clsName : Option String) (base : String)
    (symbolTable : List (Option String × String)) (f : FunctionSymbol) : List GraphOp :=
  match f.name, clsName with
  | some fn, some cn =>
      if pyIn "." fn && pyStartsWith fn (cn ++ ".") then
        let methodName := secondDotComponent fn
        let targetSymbol := base ++ "." ++ methodName
        match dictGet (some targetSymbol) symbolTable with
        | some overriddenId =>
            if overriddenId != "" then
              [ .rel "Function" "id" (.s (filepath ++ "::" ++ fn)) "OVERRIDES"
                  "Function" "id" (.s overriddenId) [] ]
            else []
        | none => []
      else []
  | _, _ => []

/-- The upserts for one base-class reference of a class: an `INHERITS` edge
when the base resolves through the symbol table (truthily), followed by the
`OVERRIDES` scan over all functions of the file. -/
def baseOps (filepath : String) (symbols : FileSymbols)
    (symbolTable : List (Option String × String)) (cls : ClassSymbol)
    (base : String) : List GraphOp :=
  let clsId := filepath ++ "::" ++ pyStr cls.name
  match dictGet (some base) symbolTable with
  | some baseId =>
      if baseId != "" then
        .rel "Class" "id" (.s clsId) "INHERITS" "Class" "id" (.s baseId) []
          :: symbols.functions.flatMap (overrideOps filepath cls.name base symbolTable)
      else []
  | none => []

/-- The upserts for one class: node, containment edge, attribute upserts,
then per-base inheritance and override upserts. -/
def classOps (filepath : String) (symbols : FileSymbols)
    (symbolTable : List (Option String × String)) (cls : ClassSymbol) : List GraphOp :=
  let clsId := filepath ++ "::" ++ pyStr cls.name
  [ .node "Class"
      [("id", .s clsId), ("name", .os cls.name), ("lineno", .n cls.lineno),
       ("end_lineno", .n cls.endLineno), ("file_path", .s filepath),
       ("code_snippet", .s cls.codeSnippet)] "id",
    .rel "File" "path" (.s filepath) "CONTAINS_CLASS" "Class" "id" (.s clsId) [] ]
  ++ cls.attributes.flatMap (attrOps filepath clsId)
  ++ cls.bases.flatMap (baseOps filepath symbols symbolTable cls)

/-- The Package node and `IMPORTS` edge upserts for one imported module. -/
def importOps (filepath : String) (pkg : Option String) : List GraphOp :=
  [ .node "Package" [("name", .os pkg)] "name",
    .rel "File" "path" (.s filepath) "IMPORTS" "Package" "name" (.os pkg) [] ]

/-- The alias mapping step of call resolution:
`symbols.get("aliases", {}).get(base, base)` rendered by the f-string,
where `base` is the part of the callee text before its first dot. -/
def aliasBase (aliases : List (Option String × Option String)) (callee : String) :
    String :=
  match dictGet (some (beforeFirstDot callee)) aliases with
  | some v => pyStr v
  | none => beforeFirstDot callee

/-- The two-stage lookup of `populate_graph_from_code_data` for one raw
callee text (`symbol_table.get(callee)`, then on a falsy result and a
dotted text, `symbol_table.get(f"{alias}.{member}")`). -/
def resolveCallee (symbolTable : List (Option String × String))
    (aliases : List (Option String × Option String)) (callee : String) :
    Option String :=
  let calleeId := dictGet (some callee) symbolTable
  if !pyTruthy calleeId && pyIn "." callee then
    dictGet (some (aliasBase aliases callee ++ "." ++ afterFirstDot callee)) symbolTable
  else calleeId

/-- The upserts for one raw call reference of one caller: a single `CALLS`
edge when resolution yields a truthy identifier, nothing otherwise. -/
def calleeOps (filepath : String) (symbols : FileSymbols)
    (symbolTable : List (Option String × String)) (caller : Option String)
    (callee : String) : List GraphOp :=
  let callerId := filepath ++ "::" ++ pyStr caller
  match resolveCallee symbolTable symbols.aliases callee with
  | some calleeId =>
      if calleeId != "" then
        [ .rel "Function" "id" (.s callerId) "CALLS" "Function" "id" (.s calleeId) [] ]
      else []
  | none => []

/-- The upserts for one file: File node, function upserts, class upserts,
then import upserts, then call upserts caller by caller. -/
def fileOps (symbolTable : List (Option String × String)) (filepath : String)
    (symbols : FileSymbols) : List GraphOp :=
  .node "File" [("path", .s filepath), ("name", .s (pathBasename filepath))] "path"
    :: symbols.functions.flatMap (funcOps filepath)
    ++ symbols.classes.flatMap (classOps filepath symbols symbolTable)
    ++ symbols.imports.flatMap (importOps filepath)
    ++ symbols.calls.flatMap (fun kv => kv.2.flatMap (calleeOps filepath symbols symbolTable kv.1))

/-- `populate_graph_from_code_data(code_graph_data, symbol_table)` as the
ordered batch of upserts it sends to the store. -/
def populate_graph_from_code_data (codeGraphData : List (String × FileSymbols))
    (symbolTable : List (Option String × String)) : List GraphOp :=
  codeGraphData.flatMap (fun kv => fileOps symbolTable kv.1 kv.2)

/-- Build a `CSTChildren` spine from a list of (field?, named, node) triples. -/
def CSTChildren.ofList : List (Option String × Bool × CST) → CSTChildren
  | [] => .nil
  | (f, nm, c) :: rest => .cons f nm c (CSTChildren.ofList rest)

/-- Build a node with irrelevant (zeroed) positions. -/
def mkNode (ty text : String) (cs : List (Option String × Bool × CST)) : CST :=
  .mk ty text 0 0 0 0 (CSTChildren.ofList cs)

/-- An anonymous token node. -/
def tok (s : String) : CST := mkNode s s []

/-- A named `identifier` leaf. -/
def ident (s : String) : CST := mkNode "identifier" s []

/-- The tree-sitter parse tree of
`class Dog:\n    def speak(self):\n        self.bark()\n\ndef run():\n    pass\n`:
a class `Dog` with a method `speak` whose body calls `self.bark()`, followed
by a free function `run`. -/
def dogRunTree : CST :=
  mkNode "module" "class Dog:\n    def speak(self):\n        self.bark()\n\ndef run():\n    pass\n"
    [ (none, true, mkNode "class_definition" "class Dog:\n    def speak(self):\n        self.bark()"
        [ (none, false, tok "class"),
          (some "name", true, ident "Dog"),
          (none, false, tok ":"),
          (some "body", true, mkNode "block" "def speak(self):\n        self.bark()"
            [ (none, true, mkNode "function_definition" "def speak(self):\n        self.bark()"
                [ (none, false, tok "def"),
                  (some "name", true, ident "speak"),
                  (some "parameters", true, mkNode "parameters" "(self)"
                    [ (none, false, tok "("), (none, true, ident "self"), (none, false, tok ")") ]),
                  (none, false, tok ":"),
                  (some "body", true, mkNode "block" "self.bark()"
                    [ (none, true, mkNode "expression_statement" "self.bark()"
                        [ (none, true, mkNode "call" "self.bark()"
                            [ (some "function", true, mkNode "attribute" "self.bark"
                                [ (some "object", true, ident "self"),
                                  (none, false, tok "."),
                                  (some "attribute", true, ident "bark") ]),
                              (some "arguments", true, mkNode "argument_list" "()"
                                [ (none, false, tok "("), (none, false, tok ")") ]) ]) ]) ]) ]) ]) ]),
      (none, true, mkNode "function_definition" "def run():\n    pass"
        [ (none, false, tok "def"),
          (some "name", true, ident "run"),
          (some "parameters", true, mkNode "parameters" "()"
            [ (none, false, tok "("), (none, false, tok ")") ]),
          (none, false, tok ":"),
          (some "body", true, mkNode "block" "pass"
            [ (none, true, mkNode "pass_statement" "pass" [ (none, false, tok "pass") ]) ]) ]) ]

example : (extract_symbols_from_code dogRunTree).functions.map FunctionSymbol.name
    = [some "Dog.speak", some "run"] := by decide

example : (extract_symbols_from_code dogRunTree).calls
    = [(some "Dog.speak", ["Dog.bark"]), (some "run", [])] := by decide

/-- The tree-sitter parse tree of
`class A:\n    class B:\n        pass\n    def m(self):\n        pass\n`:
a nested class `B` inside `A`, followed by a method `m` of `A` that appears
after `B` in the class body. -/
def nestedClassTree : CST :=
  mkNode "module" "class A:\n    class B:\n        pass\n    def m(self):\n        pass\n"
    [ (none, true, mkNode "class_definition" "class A:\n    class B:\n        pass\n    def m(self):\n        pass"
        [ (none, false, tok "class"),
          (some "name", true, ident "A"),
          (none, false, tok ":"),
          (some "body", true, mkNode "block" "class B:\n        pass\n    def m(self):\n        pass"
            [ (none, true, mkNode "class_definition" "class B:\n        pass"
                [ (none, false, tok "class"),
                  (some "name", true, ident "B"),
                  (none, false, tok ":"),
                  (some "body", true, mkNode "block" "pass"
                    [ (none, true, mkNode "pass_statement" "pass" [ (none, false, tok "pass") ]) ]) ]),
              (none, true, mkNode "function_definition" "def m(self):\n        pass"
                [ (none, false, tok "def"),
                  (some "name", true, ident "m"),
                  (some "parameters", true, mkNode "parameters" "(self)"
                    [ (none, false, tok "("), (none, true, ident "self"), (none, false, tok ")") ]),
                  (none, false, tok ":"),
                  (some "body", true, mkNode "block" "pass"
                    [ (none, true, mkNode "pass_statement" "pass" [ (none, false, tok "pass") ]) ]) ]) ]) ]) ]

example : (extract_symbols_from_code nestedClassTree).functions.map FunctionSymbol.name
    = [some "m"] := by decide

/-- The tree-sitter parse tree of `class Dog:\n    x = 1\n`: a class whose
body consists of one top-level assignment statement.  As tree-sitter-python
parses it, the assignment lives inside the `block` node filling the class
node's `body` field; it is not an immediate child of the class node. -/
def classAttrTree : CST :=
  mkNode "module" "class Dog:\n    x = 1\n"
    [ (none, true, mkNode "class_definition" "class Dog:\n    x = 1"
        [ (none, false, tok "class"),
          (some "name", true, ident "Dog"),
          (none, false, tok ":"),
          (some "body", true, mkNode "block" "x = 1"
            [ (none, true, mkNode "expression_statement" "x = 1"
                [ (none, true, mkNode "assignment" "x = 1"
                    [ (some "left", true, ident "x"),
                      (none, false, tok "="),
                      (some "right", true, mkNode "integer" "1" []) ]) ]) ]) ]) ]

example : (extract_symbols_from_code classAttrTree).classes.map ClassSymbol.attributes
    = [[]] := by decide

/-- The tree-sitter parse tree of
`def f():\n    g()\n\ndef f():\n    h()\n`: two definitions of the same
function name `f`, the first calling `g`, the second calling `h`. -/
def dupFuncTree : CST :=
  mkNode "module" "def f():\n    g()\n\ndef f():\n    h()\n"
    [ (none, true, mkNode "function_definition" "def f():\n    g()"
        [ (none, false, tok "def"),
          (some "name", true, ident "f"),
          (some "parameters", true, mkNode "parameters" "()"
            [ (none, false, tok "("), (none, false, tok ")") ]),
          (none, false, tok ":"),
          (some "body", true, mkNode "block" "g()"
            [ (none, true, mkNode "expression_statement" "g()"
                [ (none, true, mkNode "call" "g()"
                    [ (some "function", true, ident "g"),
                      (some "arguments", true, mkNode "argument_list" "()"
                        [ (none, false, tok "("), (none, false, tok ")") ]) ]) ]) ]) ]),
      (none, true, mkNode "function_definition" "def f():\n    h()"
        [ (none, false, tok "def"),
          (some "name", true, ident "f"),
          (some "parameters", true, mkNode "parameters" "()"
            [ (none, false, tok "("), (none, false, tok ")") ]),
          (none, false, tok ":"),
          (some "body", true, mkNode "block" "h()"
            [ (none, true, mkNode "expression_statement" "h()"
                [ (none, true, mkNode "call" "h()"
                    [ (some "function", true, ident "h"),
                      (some "arguments", true, mkNode "argument_list" "()"
                        [ (none, false, tok "("), (none, false, tok ")") ]) ]) ]) ]) ]) ]

example : (extract_symbols_from_code dupFuncTree).calls = [(some "f", ["h"])] := by decide

example : (extract_symbols_from_code dupFuncTree).functions.map FunctionSymbol.name
    = [some "f", some "f"] := by decide

/-- First-of-two choice on options (`a` if present, else `b`). -/
def optOr {α : Type} (a b : Option α) : Option α :=
  match a with
  | some v => some v
  | none => b

@[simp]
theorem optOr_some {α : Type} (v : α) (b : Option α) : optOr (some v) b = some v := rfl

@[simp]
theorem optOr_none {α : Type} (b : Option α) : optOr none b = b := rfl

@[simp]
theorem optOr_self_none {α : Type} (a : Option α) : optOr a none = a := by
  cases a <;> rfl

theorem dictGet_dictInsert {κ α : Type} [DecidableEq κ] (k k' : κ) (v : α)
    (l : List (κ × α)) :
    dictGet k (dictInsert k' v l) = if k' = k then some v else dictGet k l := by
  induction l with
  | nil => simp [dictInsert, dictGet]
  | cons hd tl ih =>
      obtain ⟨k₀, v₀⟩ := hd
      by_cases h₀ : k₀ = k'
      · subst h₀
        by_cases h₁ : k₀ = k <;> simp [dictInsert, dictGet, h₁]
      · by_cases h₁ : k₀ = k
        · subst h₁
          have h₂ : k' ≠ k₀ := fun he => h₀ he.symm
          simp [dictInsert, dictGet, h₀, h₂]
        · simp [dictInsert, dictGet, h₀, h₁, ih]

theorem dictGet_append {κ α : Type} [DecidableEq κ] (k : κ) (l₁ l₂ : List (κ × α)) :
    dictGet k (l₁ ++ l₂) = optOr (dictGet k l₁) (dictGet k l₂) := by
  induction l₁ with
  | nil => simp [dictGet]
  | cons hd tl ih =>
      obtain ⟨k₀, v₀⟩ := hd
      by_cases h : k₀ = k <;> simp [dictGet, h, ih]

theorem dictGet_foldl_insert {κ α : Type} [DecidableEq κ] (k : κ)
    (ws : List (κ × α)) (t₀ : List (κ × α)) :
    dictGet k (ws.foldl (fun t kv => dictInsert kv.1 kv.2 t) t₀)
      = optOr (dictGet k ws.reverse) (dictGet k t₀) := by
  induction ws generalizing t₀ with
  | nil => simp [dictGet]
  | cons hd tl ih =>
      obtain ⟨k₀, v₀⟩ := hd
      simp only [List.foldl_cons, ih, List.reverse_cons, dictGet_append]
      by_cases h : k₀ = k
      · subst h
        cases dictGet k₀ tl.reverse <;> simp [dictGet, dictGet_dictInsert]
      · cases dictGet k tl.reverse <;> simp [dictGet, h, dictGet_dictInsert]

theorem mem_of_dictGet_eq_some {κ α : Type} [DecidableEq κ] {k : κ} {v : α}
    {l : List (κ × α)} (h : dictGet k l = some v) : (k, v) ∈ l := by
  induction l with
  | nil => simp [dictGet] at h
  | cons hd tl ih =>
      obtain ⟨k₀, v₀⟩ := hd
      by_cases h₀ : k₀ = k
      · subst h₀
        simp [dictGet] at h
        simp [h]
      · simp [dictGet, h₀] at h
        simp [ih h]

theorem dictGet_eq_none_of_not_mem {κ α : Type} [DecidableEq κ] {k : κ}
    {l : List (κ × α)} (h : k ∉ l.map Prod.fst) : dictGet k l = none := by
  induction l with
  | nil => rfl
  | cons hd tl ih =>
      obtain ⟨k₀, v₀⟩ := hd
      simp only [List.map_cons, List.mem_cons] at h
      push_neg at h
      have h₁ : k₀ ≠ k := fun he => h.1 he.symm
      simp [dictGet, h₁, ih h.2]

theorem dictGet_eq_some_of_nodup_mem {κ α : Type} [DecidableEq κ] {k : κ} {v : α}
    {l : List (κ × α)} (hnd : (l.map Prod.fst).Nodup) (hm : (k, v) ∈ l) :
    dictGet k l = some v := by
  induction l with
  | nil => simp at hm
  | cons hd tl ih =>
      obtain ⟨k₀, v₀⟩ := hd
      simp only [List.map_cons, List.nodup_cons] at hnd
      rcases List.mem_cons.mp hm with h | h
      · cases h
        simp [dictGet]
      · have hk : k₀ ≠ k := by
          intro he
          apply hnd.1
          rw [he]
          exact List.mem_map_of_mem Prod.fst h
        simp [dictGet, hk, ih hnd.2 h]

/-- All symbol-table writes of a run, in execution order: per successful
file in input order, functions then classes. -/
def totalWrites (files : List (String × Except String FileSymbols)) :
    List (Option String × String) :=
  files.flatMap (fun e =>
    match e.2 with
    | .ok s => symbolWrites e.1 s
    | .error _ => [])

/-- The `(path, symbols)` pairs of the successfully extracted files, in
input order. -/
def okPairs (files : List (String × Except String FileSymbols)) :
    List (String × FileSymbols) :=
  files.filterMap (fun e =>
    match e.2 with
    | .ok s => some (e.1, s)
    | .error _ => none)

theorem foldl_processFile_symbolTable (files : List (String × Except String FileSymbols))
    (acc : BuildResult) :
    (files.foldl processFile acc).symbolTable
      = (totalWrites files).foldl (fun t kv => dictInsert kv.1 kv.2 t) acc.symbolTable := by
  induction files generalizing acc with
  | nil => rfl
  | cons hd tl ih =>
      obtain ⟨p, r⟩ := hd
      cases r with
      | error e => simp [totalWrites, processFile, ih]
      | ok s =>
          simp only [List.foldl_cons, ih]
          simp [totalWrites, processFile, List.foldl_append]

theorem build_symbolTable_eq (files : List (String × Except String FileSymbols)) :
    (build_code_symbol_graph_data files).symbolTable
      = (totalWrites files).foldl (fun t kv => dictInsert kv.1 kv.2 t) [] :=
  foldl_processFile_symbolTable files _

theorem foldl_processFile_codeGraphData (files : List (String × Except String FileSymbols))
    (acc : BuildResult) :
    (files.foldl processFile acc).codeGraphData
      = (okPairs files).foldl (fun t kv => dictInsert kv.1 kv.2 t) acc.codeGraphData := by
  induction files generalizing acc with
  | nil => rfl
  | cons hd tl ih =>
      obtain ⟨p, r⟩ := hd
      cases r with
      | error e => simp [okPairs, processFile, ih]
      | ok s =>
          simp only [List.foldl_cons, ih]
          simp [okPairs, processFile]

theorem build_codeGraphData_eq (files : List (String × Except String FileSymbols)) :
    (build_code_symbol_graph_data files).codeGraphData
      = (okPairs files).foldl (fun t kv => dictInsert kv.1 kv.2 t) [] :=
  foldl_processFile_codeGraphData files _

theorem okPairs_fst_sublist (files : List (String × Except String FileSymbols)) :
    ((okPairs files).map Prod.fst).Sublist (files.map Prod.fst) := by
  induction files with
  | nil => simp [okPairs]
  | cons hd tl ih =>
      obtain ⟨p, r⟩ := hd
      cases r with
      | error e =>
          simp only [okPairs, List.filterMap_cons, List.map_cons]
          exact List.Sublist.cons _ ih
      | ok s =>
          simp only [okPairs, List.filterMap_cons, List.map_cons]
          exact List.Sublist.cons₂ _ ih

theorem mem_okPairs_of_mem {files : List (String × Except String FileSymbols)}
    {p : String} {s : FileSymbols} (h : (p, Except.ok s) ∈ files) :
    (p, s) ∈ okPairs files := by
  induction files with
  | nil => simp at h
  | cons hd tl ih =>
      obtain ⟨p', r⟩ := hd
      rcases List.mem_cons.mp h with h' | h'
      · cases h'
        simp [okPairs]
      · cases r with
        | error e => simpa [okPairs] using ih h'
        | ok s' =>
            simp only [okPairs, List.filterMap_cons] at ih ⊢
            exact List.mem_cons.mpr (Or.inr (ih h'))

theorem mem_totalWrites_of_mem {files : List (String × Except String FileSymbols)}
    {p : String} {s : FileSymbols} {kv : Option String × String}
    (hf : (p, Except.ok s) ∈ files) (hw : kv ∈ symbolWrites p s) :
    kv ∈ totalWrites files := by
  unfold totalWrites
  exact List.mem_flatMap.mpr ⟨(p, Except.ok s), hf, hw⟩

theorem mem_of_mem_totalWrites {files : List (String × Except String FileSymbols)}
    {kv : Option String × String} (h : kv ∈ totalWrites files) :
    ∃ p s, (p, Except.ok s) ∈ files ∧ kv ∈ symbolWrites p s := by
  unfold totalWrites at h
  obtain ⟨⟨p, r⟩, hf, hw⟩ := List.mem_flatMap.mp h
  cases r with
  | error e => simp at hw
  | ok s => exact ⟨p, s, hf, hw⟩

theorem symbolWrites_val {p : String} {s : FileSymbols} {kv : Option String × String}
    (h : kv ∈ symbolWrites p s) : kv.2 = p ++ "::" ++ pyStr kv.1 := by
  unfold symbolWrites at h
  rcases List.mem_append.mp h with h | h
  · obtain ⟨f, _, rfl⟩ := List.mem_map.mp h
    rfl
  · obtain ⟨c, _, rfl⟩ := List.mem_map.mp h
    rfl

/-- Extraction result of a file `a.py` defining one free function `run`. -/
def runSymsA : FileSymbols :=
  { emptyFileSymbols with
      functions := [{ name := some "run", lineno := 1, colOffset := 0,
                      endLineno := 2, endColOffset := 8,
                      codeSnippet := "def run():\n    pass", isStatic := false }]
      calls := [(some "run", [])] }

/-- Extraction result of a second file `b.py` also defining a free
function `run`. -/
def runSymsB : FileSymbols :=
  { emptyFileSymbols with
      functions := [{ name := some "run", lineno := 1, colOffset := 0,
                      endLineno := 2, endColOffset := 10,
                      codeSnippet := "def run():\n    return", isStatic := false }]
      calls := [(some "run", [])] }

/-- C1: `build_code_symbol_graph_data` populates the symbol table in a
single pass over the per-file extraction results in the walker's
(path-ordered) input order: (i) a lookup in the resulting table returns the
value of the chronologically last write of that name (so a name produced by
several files gets the entry of the later file, with no error raised);
(ii, iii) every function and class symbol of every successful file
contributes its write; (iv) every write maps the symbol's name to
`filePath ++ "::" ++ name`; (v) concretely, two path-ordered files `a.py`
and `b.py` both defining `run` leave `SymbolTable["run"] = "b.py::run"`. -/
theorem symbol_table_last_write_wins :
    (∀ (files : List (String × Except String FileSymbols)) (k : Option String),
        dictGet k (build_code_symbol_graph_data files).symbolTable
          = dictGet k (totalWrites files).reverse)
    ∧ (∀ (files : List (String × Except String FileSymbols)) (p : String)
          (syms : FileSymbols) (f : FunctionSymbol),
        (p, Except.ok syms) ∈ files → f ∈ syms.functions →
        (f.name, p ++ "::" ++ pyStr f.name) ∈ totalWrites files)
    ∧ (∀ (files : List (String × Except String FileSymbols)) (p : String)
          (syms : FileSymbols) (c : ClassSymbol),
        (p, Except.ok syms) ∈ files → c ∈ syms.classes →
        (c.name, p ++ "::" ++ pyStr c.name) ∈ totalWrites files)
    ∧ (∀ (files : List (String × Except String FileSymbols)) (p : String)
          (syms : FileSymbols) (kv : Option String × String),
        (p, Except.ok syms) ∈ files → kv ∈ symbolWrites p syms →
        kv.2 = p ++ "::" ++ pyStr kv.1)
    ∧ dictGet (some "run") (build_code_symbol_graph_data
        [("a.py", Except.ok runSymsA), ("b.py", Except.ok runSymsB)]).symbolTable
        = some "b.py::run" := by
  refine ⟨?_, ?_, ?_, ?_, ?_⟩
  · intro files k
    rw [build_symbolTable_eq, dictGet_foldl_insert]
    simp [dictGet]
  · intro files p syms f hf hmem
    exact mem_totalWrites_of_mem hf
      (List.mem_append_left _ (List.mem_map_of_mem _ hmem))
  · intro files p syms c hf hmem
    exact mem_totalWrites_of_mem hf
      (List.mem_append_right _ (List.mem_map_of_mem _ hmem))
  · intro files p syms kv _ hw
    exact symbolWrites_val hw
  · decide

/-- Witness for C1 at a concrete two-file collision corpus. -/
theorem symbol_table_last_write_wins_witness :
    dictGet (some "run") (build_code_symbol_graph_data
        [("a.py", Except.ok runSymsA), ("b.py", Except.ok runSymsB)]).symbolTable
      = dictGet (some "run")
          (totalWrites [("a.py", Except.ok runSymsA), ("b.py", Except.ok runSymsB)]).reverse
    ∧ ((some "run" : Option String), "a.py::run")
        ∈ totalWrites [("a.py", Except.ok runSymsA), ("b.py", Except.ok runSymsB)]
    ∧ ("a.py::run" : String) = "a.py" ++ "::" ++ pyStr (some "run") :=
  ⟨symbol_table_last_write_wins.1
     [("a.py", Except.ok runSymsA), ("b.py", Except.ok runSymsB)] (some "run"),
   symbol_table_last_write_wins.2.1
     [("a.py", Except.ok runSymsA), ("b.py", Except.ok runSymsB)] "a.py" runSymsA
     { name := some "run", lineno := 1, colOffset := 0, endLineno := 2,
       endColOffset := 8, codeSnippet := "def run():\n    pass", isStatic := false }
     (List.mem_cons_self _ _) (List.mem_cons_self _ _),
   symbol_table_last_write_wins.2.2.2.1
     [("a.py", Except.ok runSymsA), ("b.py", Except.ok runSymsB)] "a.py" runSymsA
     (some "run", "a.py::run") (List.mem_cons_self _ _) (by decide)⟩

theorem exists_ok_of_mem_okPairs_fst {files : List (String × Except String FileSymbols)}
    {p : String} (h : p ∈ (okPairs files).map Prod.fst) :
    ∃ s, (p, Except.ok s) ∈ files := by
  induction files with
  | nil => simp [okPairs] at h
  | cons hd tl ih =>
      obtain ⟨p', r⟩ := hd
      cases r with
      | error e =>
          simp only [okPairs, List.filterMap_cons] at h
          obtain ⟨s, hs⟩ := ih h
          exact ⟨s, List.mem_cons_of_mem _ hs⟩
      | ok s' =>
          simp only [okPairs, List.filterMap_cons, List.map_cons, List.mem_cons] at h
          rcases h with h | h
          · exact ⟨s', by simp [h]⟩
          · obtain ⟨s, hs⟩ := ih h
            exact ⟨s, List.mem_cons_of_mem _ hs⟩

/-- C7: when extraction raises for exactly one file of the corpus, the
per-file `try/except` of `build_code_symbol_graph_data` absorbs the failure
(the function is total, so nothing propagates): the failing path is absent
from the returned symbols-by-path mapping, every one of the remaining N−1
files is present under its own path with its own symbols, and every
symbol-table entry originates from a successful file (never the failing
one). -/
theorem unparsable_file_skipped
    (l₁ l₂ : List (String × Except String FileSymbols)) (pbad err : String)
    (files : List (String × Except String FileSymbols))
    (hfiles : files = l₁ ++ (pbad, Except.error err) :: l₂)
    (hnodup : (files.map Prod.fst).Nodup) :
    dictGet pbad (build_code_symbol_graph_data files).codeGraphData = none
    ∧ (∀ p s, (p, Except.ok s) ∈ l₁ ++ l₂ →
        dictGet p (build_code_symbol_graph_data files).codeGraphData = some s)
    ∧ (∀ k v, dictGet k (build_code_symbol_graph_data files).symbolTable = some v →
        ∃ p s, p ≠ pbad ∧ (p, Except.ok s) ∈ files ∧ (k, v) ∈ symbolWrites p s) := by
  have hbadmem : (pbad, Except.error err) ∈ files := by
    rw [hfiles]
    exact List.mem_append_right _ (List.mem_cons_self _ _)
  have hokPairsNodup : ((okPairs files).map Prod.fst).Nodup :=
    hnodup.sublist (okPairs_fst_sublist files)
  have hnotbad : ∀ s, (pbad, Except.ok s) ∉ files := by
    intro s hmem
    have heq := List.inj_on_of_nodup_map hnodup hmem hbadmem rfl
    simp at heq
  refine ⟨?_, ?_, ?_⟩
  · rw [build_codeGraphData_eq, dictGet_foldl_insert]
    have hnot : pbad ∉ (okPairs files).map Prod.fst := by
      intro hmem
      obtain ⟨s, hs⟩ := exists_ok_of_mem_okPairs_fst hmem
      exact hnotbad s hs
    rw [dictGet_eq_none_of_not_mem (by simpa using hnot)]
    simp [dictGet]
  · intro p s hmem
    have hmf : (p, Except.ok s) ∈ files := by
      rw [hfiles]
      rcases List.mem_append.mp hmem with h | h
      · exact List.mem_append_left _ h
      · exact List.mem_append_right _ (List.mem_cons_of_mem _ h)
    have hok : (p, s) ∈ okPairs files := mem_okPairs_of_mem hmf
    rw [build_codeGraphData_eq, dictGet_foldl_insert]
    rw [dictGet_eq_some_of_nodup_mem
      (by rw [List.map_reverse]; exact List.nodup_reverse.mpr hokPairsNodup)
      (List.mem_reverse.mpr hok)]
    rfl
  · intro k v hget
    rw [build_symbolTable_eq, dictGet_foldl_insert] at hget
    simp only [dictGet, optOr_self_none] at hget
    have hmem : (k, v) ∈ totalWrites files :=
      List.mem_reverse.mp (mem_of_dictGet_eq_some hget)
    obtain ⟨p, s, hf, hw⟩ := mem_of_mem_totalWrites hmem
    refine ⟨p, s, ?_, hf, hw⟩
    intro he
    subst he
    exact hnotbad s hf

/-- Witness for C7 at a concrete three-file corpus whose middle file fails. -/
theorem unparsable_file_skipped_witness :
    dictGet "bad.py" (build_code_symbol_graph_data
      [("a.py", Except.ok runSymsA), ("bad.py", Except.error "boom"),
       ("c.py", Except.ok runSymsB)]).codeGraphData = none
    ∧ dictGet "a.py" (build_code_symbol_graph_data
      [("a.py", Except.ok runSymsA), ("bad.py", Except.error "boom"),
       ("c.py", Except.ok runSymsB)]).codeGraphData = some runSymsA
    ∧ dictGet "c.py" (build_code_symbol_graph_data
      [("a.py", Except.ok runSymsA), ("bad.py", Except.error "boom"),
       ("c.py", Except.ok runSymsB)]).codeGraphData = some runSymsB := by
  have h := unparsable_file_skipped [("a.py", Except.ok runSymsA)]
    [("c.py", Except.ok runSymsB)] "bad.py" "boom"
    [("a.py", Except.ok runSymsA), ("bad.py", Except.error "boom"),
     ("c.py", Except.ok runSymsB)] rfl (by decide)
  exact ⟨h.1, h.2.1 "a.py" runSymsA (List.mem_cons_self _ _),
    h.2.1 "c.py" runSymsB (List.mem_cons_of_mem _ (List.mem_cons_self _ _))⟩

theorem data_append (a b : String) : (a ++ b).data = a.data ++ b.data := by
  cases a
  cases b
  rfl

theorem leadsWith_append_self (p l : List Char) : leadsWith p (p ++ l) = true := by
  induction p with
  | nil => rfl
  | cons c cs ih => simp [leadsWith, ih]

theorem pyStartsWith_append (p m : String) : pyStartsWith (p ++ m) p = true := by
  unfold pyStartsWith
  rw [data_append]
  exact leadsWith_append_self _ _

theorem hasSubList_of_mem {c : Char} {l : List Char} (h : c ∈ l) :
    hasSubList [c] l = true := by
  induction l with
  | nil => simp at h
  | cons d ds ih =>
      rcases List.mem_cons.mp h with rfl | h
      · simp [hasSubList, leadsWith]
      · simp [hasSubList, ih h]

theorem not_mem_of_hasDot_false {l : List Char} (h : hasSubList ['.'] l = false) :
    ('.' : Char) ∉ l :=
  fun hm => by simp [hasSubList_of_mem hm] at h

theorem pyIn_dot_append (p m : String) : pyIn "." (p ++ "." ++ m) = true := by
  unfold pyIn
  apply hasSubList_of_mem
  rw [data_append, data_append]
  exact List.mem_append_left _ (List.mem_append_right _ (by simp [String.data]))

theorem dropThroughDot_append_dot (p l : List Char) (hp : ('.' : Char) ∉ p) :
    dropThroughDot (p ++ '.' :: l) = l := by
  induction p with
  | nil => simp [dropThroughDot]
  | cons c cs ih =>
      simp only [List.mem_cons] at hp
      push_neg at hp
      have hc : c ≠ '.' := fun he => hp.1 he.symm
      simp [dropThroughDot, hc, ih hp.2]

theorem takeToDot_dotfree (l : List Char) (h : ('.' : Char) ∉ l) : takeToDot l = l := by
  induction l with
  | nil => rfl
  | cons c cs ih =>
      simp only [List.mem_cons] at h
      push_neg at h
      have hc : c ≠ '.' := fun he => h.1 he.symm
      simp [takeToDot, hc, ih h.2]

theorem afterFirstDot_append (p m : String) (hp : pyIn "." p = false) :
    afterFirstDot (p ++ "." ++ m) = m := by
  obtain ⟨l⟩ := m
  unfold afterFirstDot
  rw [data_append, data_append]
  rw [show ("." : String).data = ['.'] from rfl]
  rw [List.append_assoc, List.singleton_append]
  rw [dropThroughDot_append_dot _ _ (not_mem_of_hasDot_false hp)]

theorem secondDotComponent_append (p m : String) (hp : pyIn "." p = false)
    (hm : pyIn "." m = false) : secondDotComponent (p ++ "." ++ m) = m := by
  obtain ⟨l⟩ := m
  unfold secondDotComponent
  rw [data_append, data_append]
  rw [show ("." : String).data = ['.'] from rfl]
  rw [List.append_assoc, List.singleton_append]
  rw [dropThroughDot_append_dot _ _ (not_mem_of_hasDot_false hp)]
  rw [takeToDot_dotfree _ (not_mem_of_hasDot_false hm)]

/-- C8: `extract_symbols_from_code` is deterministic — two invocations on
the parse tree of the same source text yield structurally identical
`FileSymbols` records, field by field.  In the embedding the extractor is a
pure function of the parse tree (the Python code touches no state outside
the per-call locals, and tree-sitter parsing of a fixed text is itself
deterministic), so the two results are one and the same value. -/
theorem extract_symbols_deterministic (root : CST) :
    (extract_symbols_from_code root).functions = (extract_symbols_from_code root).functions
    ∧ (extract_symbols_from_code root).classes = (extract_symbols_from_code root).classes
    ∧ (extract_symbols_from_code root).imports = (extract_symbols_from_code root).imports
    ∧ (extract_symbols_from_code root).aliases = (extract_symbols_from_code root).aliases
    ∧ (extract_symbols_from_code root).calls = (extract_symbols_from_code root).calls
    ∧ extract_symbols_from_code root = extract_symbols_from_code root :=
  ⟨rfl, rfl, rfl, rfl, rfl, rfl⟩

/-- C6 (failing input): for the source `class Dog:\n    x = 1\n`, whose
class body holds one top-level assignment, the attribute scan of
`extract_symbols_from_code` collects nothing — the scan inspects the
immediate named children of the `class_definition` node, while tree-sitter
puts every statement of the class body under the intervening `block` node —
so the class record carries an empty attribute list and
`populate_graph_from_code_data` emits no `Attribute` node upsert and no
`HAS_ATTRIBUTE` edge upsert for it. -/
theorem class_attributes_never_collected :
    (extract_symbols_from_code classAttrTree).classes.map ClassSymbol.attributes = [[]]
    ∧ (populate_graph_from_code_data
        [("dog.py", extract_symbols_from_code classAttrTree)] []).filter
        (fun op => match op with
          | GraphOp.rel _ _ _ t _ _ _ _ => t == "HAS_ATTRIBUTE"
          | _ => false) = []
    ∧ (populate_graph_from_code_data
        [("dog.py", extract_symbols_from_code classAttrTree)] []).filter
        (fun op => match op with
          | GraphOp.node l _ _ => l == "Attribute"
          | _ => false) = [] :=
  ⟨by decide, by decide, by decide⟩

/-- C5: qualified names use the single current-class slot: a method `speak`
inside class `Dog` extracts as `"Dog.speak"` and a free function `run` as
`"run"` (first conjunct); the slot is cleared — set to `None`, not restored
— whenever a `class_definition` node is left (second conjunct); hence the
slot does not stack: after an inner class closes, a method of the still-open
outer class extracts under its bare name (third conjunct). -/
theorem qualified_name_single_slot :
    (extract_symbols_from_code dogRunTree).functions.map FunctionSymbol.name
        = [some "Dog.speak", some "run"]
    ∧ (∀ (st : ExtState) (n : CST), n.ty = "class_definition" →
        (CST.traverse st n).currentClass = none)
    ∧ (extract_symbols_from_code nestedClassTree).functions.map FunctionSymbol.name
        = [some "m"] := by
  refine ⟨by decide, ?_, by decide⟩
  intro st n h
  match n with
  | .mk ty tx a b c d ch =>
      simp only [CST.ty] at h
      subst h
      unfold CST.traverse
      simp

/-- Witness for C5: clearing the slot at a concrete class node. -/
theorem qualified_name_single_slot_witness :
    (CST.traverse { syms := emptyFileSymbols, currentClass := some "A" }
        (mkNode "class_definition" "class B:\n    pass"
          [ (none, false, tok "class"),
            (some "name", true, ident "B"),
            (none, false, tok ":"),
            (some "body", true, mkNode "block" "pass"
              [ (none, true, mkNode "pass_statement" "pass" [ (none, false, tok "pass") ]) ]) ])).currentClass
      = none :=
  qualified_name_single_slot.2.1 _ _ rfl

/-- C4: the callee-text rewrite of `find_calls`: (i) under a truthy current
class `c`, a callee text starting with `self.` is recorded as
`c ++ "." ++ <text after the first dot>`; (ii) in particular
`self.<member>` inside class `c` becomes `c.<member>`; (iii) a text not
starting with `self.` is recorded verbatim; (iv) outside any class
(current class `None`) every text is recorded verbatim; (v) end to end,
extracting the `Dog`/`run` source records the call `self.bark()` inside
class `Dog` as raw callee text `"Dog.bark"`. -/
theorem self_call_rewrite :
    (∀ (c t : String), c ≠ "" → pyStartsWith t "self." = true →
        rewriteSelfCall (some c) t = c ++ "." ++ afterFirstDot t)
    ∧ (∀ (c m : String), c ≠ "" →
        rewriteSelfCall (some c) ("self." ++ m) = c ++ "." ++ m)
    ∧ (∀ (cc : Option String) (t : String), pyStartsWith t "self." = false →
        rewriteSelfCall cc t = t)
    ∧ (∀ (t : String), rewriteSelfCall none t = t)
    ∧ (extract_symbols_from_code dogRunTree).calls
        = [(some "Dog.speak", ["Dog.bark"]), (some "run", [])] := by
  refine ⟨?_, ?_, ?_, ?_, by decide⟩
  · intro c t hc ht
    simp [rewriteSelfCall, ht, pyTruthy, pyStr, hc]
  · intro c m hc
    have ht : pyStartsWith ("self." ++ m) "self." = true := pyStartsWith_append _ _
    have hd : afterFirstDot ("self." ++ m) = m := by
      have : ("self." ++ m) = "self" ++ "." ++ m := by
        rw [show ("self." : String) = "self" ++ "." from rfl]
      rw [this]
      exact afterFirstDot_append "self" m (by decide)
    simp [rewriteSelfCall, ht, pyTruthy, pyStr, hc, hd]
  · intro cc t ht
    simp [rewriteSelfCall, ht]
  · intro t
    simp [rewriteSelfCall, pyTruthy]

/-- Witness for C4 at concrete callee texts. -/
theorem self_call_rewrite_witness :
    rewriteSelfCall (some "Dog") "self.bark" = "Dog" ++ "." ++ afterFirstDot "self.bark"
    ∧ rewriteSelfCall (some "Dog") ("self." ++ "bark") = "Dog" ++ "." ++ "bark"
    ∧ rewriteSelfCall (some "Dog") "bark" = "bark"
    ∧ rewriteSelfCall none "self.bark" = "self.bark" :=
  ⟨self_call_rewrite.1 "Dog" "self.bark" (by decide) (by decide),
   self_call_rewrite.2.1 "Dog" "bark" (by decide),
   self_call_rewrite.2.2.1 (some "Dog") "bark" (by decide),
   self_call_rewrite.2.2.2.1 "self.bark"⟩

/-- C2: per raw call reference, `populate_graph_from_code_data` resolves by
(a) exact symbol-table lookup of the raw text — a truthy hit emits exactly
one `CALLS` edge upsert from `filePath::<caller>` to the found identifier;
(b) on a falsy exact lookup, when the text contains a dot, an alias-mapped
retry on `<aliasBase>.<member>` — a truthy hit likewise emits exactly one
`CALLS` edge upsert to the retried identifier; (c) when the exact lookup is
falsy and either the text has no dot or the retry is falsy too, the
reference is dropped: no upsert of any kind is emitted and no error is
raised (the embedding is total). -/
theorem call_reference_resolution :
    (∀ (table : List (Option String × String)) (syms : FileSymbols)
        (filepath : String) (caller : Option String) (callee cid : String),
      dictGet (some callee) table = some cid → cid ≠ "" →
      calleeOps filepath syms table caller callee
        = [GraphOp.rel "Function" "id" (.s (filepath ++ "::" ++ pyStr caller)) "CALLS"
            "Function" "id" (.s cid) []])
    ∧ (∀ (table : List (Option String × String)) (syms : FileSymbols)
        (filepath : String) (caller : Option String) (callee cid : String),
      pyTruthy (dictGet (some callee) table) = false → pyIn "." callee = true →
      dictGet (some (aliasBase syms.aliases callee ++ "." ++ afterFirstDot callee)) table
        = some cid → cid ≠ "" →
      calleeOps filepath syms table caller callee
        = [GraphOp.rel "Function" "id" (.s (filepath ++ "::" ++ pyStr caller)) "CALLS"
            "Function" "id" (.s cid) []])
    ∧ (∀ (table : List (Option String × String)) (syms : FileSymbols)
        (filepath : String) (caller : Option String) (callee : String),
      pyTruthy (dictGet (some callee) table) = false →
      (pyIn "." callee = false
        ∨ pyTruthy (dictGet (some (aliasBase syms.aliases callee ++ "." ++ afterFirstDot callee))
            table) = false) →
      calleeOps filepath syms table caller callee = []) := by
  refine ⟨?_, ?_, ?_⟩
  · intro table syms filepath caller callee cid h hne
    simp [calleeOps, resolveCallee, h, pyTruthy, hne]
  · intro table syms filepath caller callee cid hfalsy hdot h hne
    simp [calleeOps, resolveCallee, hfalsy, hdot, h, hne]
  · intro table syms filepath caller callee hfalsy hmiss
    rcases hmiss with hnodot | hretry
    · have : dictGet (some callee) table = none
          ∨ dictGet (some callee) table = some "" := by
        cases hg : dictGet (some callee) table with
        | none => exact Or.inl rfl
        | some v =>
            right
            simp [hg, pyTruthy] at hfalsy
            simp [hfalsy]
      rcases this with hg | hg <;> simp [calleeOps, resolveCallee, hfalsy, hnodot, hg]
    · have : dictGet (some (aliasBase syms.aliases callee ++ "." ++ afterFirstDot callee)) table = none
          ∨ dictGet (some (aliasBase syms.aliases callee ++ "." ++ afterFirstDot callee)) table = some "" := by
        cases hg : dictGet (some (aliasBase syms.aliases callee ++ "." ++ afterFirstDot callee)) table with
        | none => exact Or.inl rfl
        | some v =>
            right
            simp [hg, pyTruthy] at hretry
            simp [hretry]
      by_cases hdot : pyIn "." callee = true
      · rcases this with hg | hg <;> simp [calleeOps, resolveCallee, hfalsy, hdot, hg]
      · simp only [Bool.not_eq_true] at hdot
        have hnone : dictGet (some callee) table = none
            ∨ dictGet (some callee) table = some "" := by
          cases hg : dictGet (some callee) table with
          | none => exact Or.inl rfl
          | some v =>
              right
              simp [hg, pyTruthy] at hfalsy
              simp [hfalsy]
        rcases hnone with hg | hg <;> simp [calleeOps, resolveCallee, hfalsy, hdot, hg]

/-- A symbol table holding `numpy.array` and `main` (C2 witness data). -/
def npTable : List (Option String × String) :=
  [(some "numpy.array", "lib/np.py::numpy.array"), (some "main", "app.py::main")]

/-- File symbols whose alias map sends `np` to `numpy` (C2 witness data). -/
def npSyms : FileSymbols :=
  { emptyFileSymbols with aliases := [(some "np", some "numpy")] }

/-- Witness for C2: exact hit, aliased hit, and silent drop. -/
theorem call_reference_resolution_witness :
    calleeOps "app.py" npSyms npTable (some "main") "main"
      = [GraphOp.rel "Function" "id" (.s ("app.py" ++ "::" ++ pyStr (some "main"))) "CALLS"
          "Function" "id" (.s "app.py::main") []]
    ∧ calleeOps "app.py" npSyms npTable (some "main") "np.array"
      = [GraphOp.rel "Function" "id" (.s ("app.py" ++ "::" ++ pyStr (some "main"))) "CALLS"
          "Function" "id" (.s "lib/np.py::numpy.array") []]
    ∧ calleeOps "app.py" npSyms npTable (some "main") "np.missing" = [] :=
  ⟨call_reference_resolution.1 npTable npSyms "app.py" (some "main") "main"
     "app.py::main" (by decide) (by decide),
   call_reference_resolution.2.1 npTable npSyms "app.py" (some "main") "np.array"
     "lib/np.py::numpy.array" (by decide) (by decide) (by decide) (by decide),
   call_reference_resolution.2.2 npTable npSyms "app.py" (some "main") "np.missing"
     (by decide) (Or.inr (by decide))⟩

/-- C3: for a class named `Dog` carrying base reference `Animal`, when the
symbol table resolves `Animal` truthily, `populate_graph_from_code_data`
emits an `INHERITS` edge upsert from `filePath::Dog` to the resolved class
identifier; and for every function of the file whose recorded name is
`Dog.<m>` with `<m>` dot-free, whenever the symbol table also resolves
`Animal.<m>` truthily, an `OVERRIDES` edge upsert is emitted from
`filePath::Dog.<m>` to that identifier — detection is purely by the bare
method name on the named base. -/
theorem inherits_and_overrides
    (filepath : String) (syms : FileSymbols)
    (table : List (Option String × String)) (cls : ClassSymbol)
    (hname : cls.name = some "Dog") (hbase : "Animal" ∈ cls.bases)
    (aid : String) (haid : dictGet (some "Animal") table = some aid)
    (haid' : aid ≠ "") :
    GraphOp.rel "Class" "id" (.s (filepath ++ "::" ++ "Dog")) "INHERITS"
        "Class" "id" (.s aid) [] ∈ classOps filepath syms table cls
    ∧ (∀ (f : FunctionSymbol) (mn : String), f ∈ syms.functions →
        f.name = some ("Dog." ++ mn) → pyIn "." mn = false →
        ∀ oid, dictGet (some ("Animal." ++ mn)) table = some oid → oid ≠ "" →
        GraphOp.rel "Function" "id" (.s (filepath ++ "::" ++ ("Dog." ++ mn)))
            "OVERRIDES" "Function" "id" (.s oid) []
          ∈ classOps filepath syms table cls) := by
  have hdogdot : ("Dog." : String) = "Dog" ++ "." := by decide
  have hbaseOps : ∀ op, op ∈ baseOps filepath syms table cls "Animal" →
      op ∈ classOps filepath syms table cls := by
    intro op hop
    unfold classOps
    exact List.mem_append_right _ (List.mem_flatMap.mpr ⟨"Animal", hbase, hop⟩)
  constructor
  · apply hbaseOps
    unfold baseOps
    rw [haid]
    simp [haid', hname, pyStr]
  · intro f mn hf hfname hmn oid hoid hoid'
    apply hbaseOps
    unfold baseOps
    rw [haid]
    simp only [haid', bne_iff_ne, ne_eq, not_false_eq_true, if_true]
    refine List.mem_cons_of_mem _ ?_
    refine List.mem_flatMap.mpr ⟨f, hf, ?_⟩
    unfold overrideOps
    rw [hfname, hname]
    have hdot : pyIn "." ("Dog." ++ mn) = true := by
      rw [hdogdot]
      exact pyIn_dot_append "Dog" mn
    have hsw : pyStartsWith ("Dog." ++ mn) "Dog." = true := by
      rw [hdogdot]
      exact pyStartsWith_append ("Dog" ++ ".") mn
    have hsec : secondDotComponent ("Dog." ++ mn) = mn := by
      rw [hdogdot]
      exact secondDotComponent_append "Dog" mn (by decide) hmn
    simp [hdot, hsw, hsec, hoid, hoid']

/-- The method record `Dog.speak` of the C3 witness file. -/
def dogSpeakFunc : FunctionSymbol :=
  { name := some "Dog.speak", lineno := 2, colOffset := 4, endLineno := 3,
    endColOffset := 12, codeSnippet := "def speak(self):\n        pass",
    isStatic := false }

/-- The class record `Dog(Animal)` of the C3 witness file. -/
def dogCls : ClassSymbol :=
  { name := some "Dog", lineno := 1, colOffset := 0, endLineno := 3,
    endColOffset := 12,
    codeSnippet := "class Dog(Animal):\n    def speak(self):\n        pass",
    bases := ["Animal"], attributes := [] }

/-- The C3 witness file symbols: class `Dog(Animal)` with method `speak`. -/
def dogSyms : FileSymbols :=
  { emptyFileSymbols with
      functions := [dogSpeakFunc]
      classes := [dogCls]
      calls := [(some "Dog.speak", [])] }

/-- A symbol table resolving `Animal` and `Animal.speak` (C3 witness data). -/
def animalTable : List (Option String × String) :=
  [(some "Animal", "animal.py::Animal"),
   (some "Animal.speak", "animal.py::Animal.speak")]

/-- Witness for C3 at the concrete `Dog(Animal)`/`speak` configuration. -/
theorem inherits_and_overrides_witness :
    GraphOp.rel "Class" "id" (.s ("zoo.py" ++ "::" ++ "Dog")) "INHERITS"
        "Class" "id" (.s "animal.py::Animal") []
      ∈ classOps "zoo.py" dogSyms animalTable dogCls
    ∧ GraphOp.rel "Function" "id" (.s ("zoo.py" ++ "::" ++ ("Dog." ++ "speak")))
        "OVERRIDES" "Function" "id" (.s "animal.py::Animal.speak") []
      ∈ classOps "zoo.py" dogSyms animalTable dogCls :=
  have h := inherits_and_overrides "zoo.py" dogSyms animalTable dogCls rfl
    (by decide) "animal.py::Animal" (by decide) (by decide)
  ⟨h.1, h.2 dogSpeakFunc "speak" (List.mem_cons_self _ _) (by decide) (by decide)
    "animal.py::Animal.speak" (by decide) (by decide)⟩

theorem detect_foldl_characterization (classes : List ClassSymbol)
    (acc : List PatternTag) :
    classes.foldl (fun patterns cls =>
      if pyIn "__new__" cls.codeSnippet && pyIn "cls._instance" cls.codeSnippet then
        patterns ++ [{ pattern := "Singleton", cls := cls.name, role := "Singleton" }]
      else patterns) acc
    = acc ++ (classes.filter (fun cls =>
        pyIn "__new__" cls.codeSnippet && pyIn "cls._instance" cls.codeSnippet)).map
        (fun cls => { pattern := "Singleton", cls := cls.name, role := "Singleton" }) := by
  induction classes generalizing acc with
  | nil => simp
  | cons c cs ih =>
      simp only [List.foldl_cons, List.filter_cons]
      by_cases h : (pyIn "__new__" c.codeSnippet && pyIn "cls._instance" c.codeSnippet) = true
      · simp only [h, if_true, ih, List.map_cons]
        simp
      · simp only [h, if_false, ih]
        simp [h]

/-- C9: `detect_design_patterns` tags a class occurrence with the
`Singleton` label (subject the class name, role `"Singleton"`) exactly when
the class's verbatim snippet textually contains both the
restricted-instantiation marker `"__new__"` and the instance-cache-access
marker `"cls._instance"` — plain substring containment over the whole class
body; classes lacking either marker contribute no tag. -/
theorem singleton_pattern_iff (fp : String) (syms : FileSymbols) (tag : PatternTag) :
    tag ∈ detect_design_patterns fp syms
      ↔ ∃ c, c ∈ syms.classes
          ∧ (pyIn "__new__" c.codeSnippet && pyIn "cls._instance" c.codeSnippet) = true
          ∧ tag = { pattern := "Singleton", cls := c.name, role := "Singleton" } := by
  unfold detect_design_patterns
  rw [detect_foldl_characterization]
  simp only [List.nil_append, List.mem_map, List.mem_filter]
  constructor
  · rintro ⟨c, ⟨hc, hp⟩, rfl⟩
    exact ⟨c, hc, hp, rfl⟩
  · rintro ⟨c, hc, hp, rfl⟩
    exact ⟨c, ⟨hc, hp⟩, rfl⟩

/-- The key invariant of the `calls` dictionary maintained by `traverse`:
its key set equals the name set of the extracted function list. -/
def CallsKeysInv (s : FileSymbols) : Prop :=
  ∀ k : Option String, (∃ v, (k, v) ∈ s.calls) ↔ ∃ f ∈ s.functions, f.name = k

theorem exists_mem_dictInsert {κ α : Type} [DecidableEq κ] (k q : κ) (v : α)
    (l : List (κ × α)) :
    (∃ w, (k, w) ∈ dictInsert q v l) ↔ k = q ∨ ∃ w, (k, w) ∈ l := by
  induction l with
  | nil => simp [dictInsert]
  | cons hd tl ih =>
      obtain ⟨k₀, v₀⟩ := hd
      by_cases h : k₀ = q
      · subst h
        simp only [dictInsert, if_pos rfl]
        constructor
        · rintro ⟨w, hw⟩
          rcases List.mem_cons.mp hw with heq | hw'
          · injection heq with h1 h2
            exact Or.inl h1
          · exact Or.inr ⟨w, List.mem_cons_of_mem _ hw'⟩
        · rintro (rfl | ⟨w, hw⟩)
          · exact ⟨v, List.mem_cons_self _ _⟩
          · rcases List.mem_cons.mp hw with heq | hw'
            · injection heq with h1 h2
              subst h1
              exact ⟨v, List.mem_cons_self _ _⟩
            · exact ⟨w, List.mem_cons_of_mem _ hw'⟩
      · simp only [dictInsert, if_neg h]
        constructor
        · rintro ⟨w, hw⟩
          rcases List.mem_cons.mp hw with heq | hw'
          · injection heq with h1 h2
            exact Or.inr ⟨v₀, by rw [h1]; exact List.mem_cons_self _ _⟩
          · rcases ih.mp ⟨w, hw'⟩ with hq | ⟨w', hw''⟩
            · exact Or.inl hq
            · exact Or.inr ⟨w', List.mem_cons_of_mem _ hw''⟩
        · rintro (rfl | ⟨w, hw⟩)
          · obtain ⟨w, hw⟩ := ih.mpr (Or.inl rfl)
            exact ⟨w, List.mem_cons_of_mem _ hw⟩
          · rcases List.mem_cons.mp hw with heq | hw'
            · injection heq with h1 h2
              exact ⟨v₀, by rw [h1]; exact List.mem_cons_self _ _⟩
            · obtain ⟨w', hw''⟩ := ih.mpr (Or.inr ⟨w, hw'⟩)
              exact ⟨w', List.mem_cons_of_mem _ hw''⟩

theorem inv_congr {s s' : FileSymbols} (hf : s'.functions = s.functions)
    (hc : s'.calls = s.calls) (h : CallsKeysInv s) : CallsKeysInv s' := by
  intro k
  rw [hf, hc]
  exact h k

theorem importChild_preserves (s : FileSymbols) (c : CST) :
    (importChild s c).functions = s.functions ∧ (importChild s c).calls = s.calls := by
  unfold importChild
  split_ifs <;> simp

theorem importStep_preserves (s : FileSymbols) (n : CST) :
    (importStep s n).functions = s.functions ∧ (importStep s n).calls = s.calls := by
  unfold importStep
  generalize namedChildren n.children = cs
  induction cs generalizing s with
  | nil => exact ⟨rfl, rfl⟩
  | cons c cs ih =>
      simp only [List.foldl_cons]
      obtain ⟨h1, h2⟩ := ih (importChild s c)
      obtain ⟨g1, g2⟩ := importChild_preserves s c
      exact ⟨h1.trans g1, h2.trans g2⟩

theorem importFromStep_preserves (s : FileSymbols) (n : CST) :
    (importFromStep s n).functions = s.functions
    ∧ (importFromStep s n).calls = s.calls := by
  unfold importFromStep
  cases childByField "module" n.children with
  | none => exact ⟨rfl, rfl⟩
  | some m =>
      cases childByField "alias" n.children with
      | none => exact ⟨rfl, rfl⟩
      | some a => exact ⟨rfl, rfl⟩

theorem classStep_preserves (s : FileSymbols) (n : CST) :
    (classStep s n).functions = s.functions ∧ (classStep s n).calls = s.calls := by
  rcases hba : classBasesAttrs (namedChildren n.children) with ⟨bases, attrs⟩
  simp [classStep, hba]

theorem functionStep_inv {s : FileSymbols} (cc : Option String) (n : CST)
    (h : CallsKeysInv s) : CallsKeysInv (functionStep s cc n) := by
  intro k
  simp only [functionStep]
  rw [exists_mem_dictInsert]
  simp only [List.mem_append, List.mem_singleton]
  constructor
  · rintro (rfl | hx)
    · exact ⟨_, Or.inr rfl, rfl⟩
    · obtain ⟨f, hf, hn⟩ := (h k).mp hx
      exact ⟨f, Or.inl hf, hn⟩
  · rintro ⟨f, hf | rfl, hn⟩
    · exact Or.inr ((h k).mpr ⟨f, hf, hn⟩)
    · exact Or.inl hn.symm

theorem traverseStep_inv (st : ExtState) (n : CST) (h : CallsKeysInv st.syms) :
    CallsKeysInv (traverseStep st n).syms := by
  unfold traverseStep
  split_ifs with h1 h2 h3 h4
  · exact inv_congr (importStep_preserves st.syms n).1 (importStep_preserves st.syms n).2 h
  · exact inv_congr (importFromStep_preserves st.syms n).1 (importFromStep_preserves st.syms n).2 h
  · exact inv_congr (classStep_preserves st.syms n).1 (classStep_preserves st.syms n).2 h
  · exact functionStep_inv st.currentClass n h
  · exact h

mutual
theorem traverse_inv : ∀ (st : ExtState) (n : CST),
    CallsKeysInv st.syms → CallsKeysInv (CST.traverse st n).syms
  | st, .mk ty tx a b c d ch, h => by
      have h1 := traverseStep_inv st (.mk ty tx a b c d ch) h
      have h2 := traverseChildren_inv (traverseStep st (.mk ty tx a b c d ch)) ch h1
      unfold CST.traverse
      by_cases hty : ty = "class_definition"
      · subst hty
        rw [if_pos rfl]
        exact h2
      · rw [if_neg hty]
        exact h2
theorem traverseChildren_inv : ∀ (st : ExtState) (l : CSTChildren),
    CallsKeysInv st.syms → CallsKeysInv (CST.traverseChildren st l).syms
  | st, .nil, h => h
  | st, .cons fn nm c rest, h =>
      traverseChildren_inv (CST.traverse st c) rest (traverse_inv st c h)
end

/-- C10: for every parse tree, the key set of the `calls` mapping returned
by `extract_symbols_from_code` coincides with the set of recorded names of
the returned function list — each extracted function contributes a `calls`
entry under its qualified name and no other key exists (first conjunct);
when two definitions share a qualified name, the function list keeps both
records (second conjunct) while the single dictionary entry holds the call
list of the later definition, which overwrote the earlier one (third
conjunct, at the two-definition tree `def f(): g()` / `def f(): h()`). -/
theorem calls_keys_match_function_names :
    (∀ (root : CST) (k : Option String),
        (∃ v, (k, v) ∈ (extract_symbols_from_code root).calls)
          ↔ ∃ f ∈ (extract_symbols_from_code root).functions, f.name = k)
    ∧ (extract_symbols_from_code dupFuncTree).functions.map FunctionSymbol.name
        = [some "f", some "f"]
    ∧ (extract_symbols_from_code dupFuncTree).calls = [(some "f", ["h"])] := by
  refine ⟨?_, by decide, by decide⟩
  intro root k
  exact traverse_inv { syms := emptyFileSymbols, currentClass := none } root
    (fun k => by simp [emptyFileSymbols]) k
